import Mathlib

/-!
Verification development for the rust-lnpbp commitment-embedding library.

The development shallowly embeds the Rust sources:
* `src/paradigms/strict_encoding.rs` — the strict binary codec
  (`StrictEncode`/`StrictDecode` implementations for integers, byte
  strings, strings, `Option`, `Vec` and usize-keyed maps, together with
  the convenience functions `strict_encode` / `strict_decode`);
* `src/primitives/commit_verify.rs` — the commit-verify algebra and the
  default `reveal_verify` of `EmbeddedCommitment`;
* `src/bp/dbc/lockscript.rs`, `src/bp/dbc/taproot.rs`,
  `src/bp/dbc/txout.rs` — the deterministic bitcoin commitment schemes;
* `src/bp/blind.rs` — outpoint blinding.

Rust machine integers are modelled as `Nat` (resp. `Int` for signed
types) with explicit bounds; byte buffers are `List Nat` whose entries
produced by the encoders are `< 256`; `io::Read` is modelled by
decoders of type `List Nat → Except Error (α × List Nat)` that consume
a prefix of the input and return the rest; `Result` is `Except`.

External collaborators that the spec declares out of scope (SHA-256
internals, elliptic-curve arithmetic, the Miniscript parser, UTF-8
validation) are kept as parameters of the corresponding definitions:
every theorem quantifies over them, and concrete witnesses instantiate
them with small executable stand-ins.
-/

namespace Lnpbp

/-! ## Strict encoding: errors (src/paradigms/strict_encoding.rs, `Error`) -/

/-- Errors of the strict encoding / decoding process, translated from
`strict_encoding::Error`.  Variants whose payloads are only used for
human-readable display (`EnumValueOverflow`, `EnumValueNotKnown`,
`ValueOutOfRange`, `DataIntegrityError`) keep their discriminant but
drop the display payloads; `Io` keeps no payload either. -/
inductive Error where
  | io : Error
  | utf8Conversion : Error
  | exceedMaxItems (size : Nat) : Error
  | wrongOptionalEncoding (significator : Nat) : Error
  | enumValueOverflow : Error
  | enumValueNotKnown (value : Nat) : Error
  | valueOutOfRange : Error
  | dataNotEntirelyConsumed : Error
  | dataIntegrityError : Error
  deriving DecidableEq, Repr

/-! ## Little-endian byte utilities

`bitcoin::consensus` encodes `u8`/`u16`/`u32`/`u64` (and the signed
widths) as fixed-width little-endian byte strings; `u32::to_be_bytes`
and `u16::to_be_bytes` in `blind.rs` are the big-endian counterparts. -/

/-- `w`-byte little-endian serialization of a natural number (the byte
string written by `consensus_encode` for a `w`-byte unsigned integer). -/
def leBytes : Nat → Nat → List Nat
  | 0, _ => []
  | w + 1, v => v % 256 :: leBytes w (v / 256)

/-- Value of a little-endian byte string. -/
def fromLeBytes : List Nat → Nat
  | [] => 0
  | b :: rest => b + 256 * fromLeBytes rest

/-- Big-endian `w`-byte serialization (`to_be_bytes` in Rust). -/
def beBytes (w v : Nat) : List Nat := (leBytes w v).reverse

theorem leBytes_length (w v : Nat) : (leBytes w v).length = w := by
  induction w generalizing v with
  | zero => rfl
  | succ w ih => simp [leBytes, ih]

theorem mod_mul_decomp (v K : Nat) (hK : 0 < K) :
    v % (256 * K) = v % 256 + 256 * (v / 256 % K) := by
  conv_lhs => rw [← Nat.div_add_mod v 256]
  rw [Nat.add_mod, Nat.mul_mod_mul_left]
  have hr : v % 256 < 256 := Nat.mod_lt _ (by norm_num)
  have hq : v / 256 % K < K := Nat.mod_lt _ hK
  have hrm : v % 256 % (256 * K) = v % 256 :=
    Nat.mod_eq_of_lt (by nlinarith)
  rw [hrm, Nat.mod_eq_of_lt (by nlinarith)]
  omega

theorem fromLeBytes_leBytes (w v : Nat) :
    fromLeBytes (leBytes w v) = v % 256 ^ w := by
  induction w generalizing v with
  | zero => simp [leBytes, fromLeBytes, Nat.mod_one]
  | succ w ih =>
    simp only [leBytes, fromLeBytes, ih]
    rw [show 256 ^ (w + 1) = 256 * 256 ^ w by ring,
      mod_mul_decomp v (256 ^ w) (Nat.pos_pow_of_pos w (by norm_num))]

theorem fromLeBytes_leBytes_of_lt {w v : Nat} (h : v < 256 ^ w) :
    fromLeBytes (leBytes w v) = v := by
  rw [fromLeBytes_leBytes, Nat.mod_eq_of_lt h]

/-! ## Decoder primitives

A decoder takes the remaining input and returns the decoded value
together with the unconsumed suffix, mirroring an `io::Read` cursor. -/

/-- `read_exact` on the byte source: take `n` bytes or fail with an
I/O error (end of file). -/
def readBytes (n : Nat) (input : List Nat) : Except Error (List Nat × List Nat) :=
  if n ≤ input.length then .ok (input.take n, input.drop n) else .error .io

theorem readBytes_append (bs rest : List Nat) :
    readBytes bs.length (bs ++ rest) = .ok (bs, rest) := by
  simp [readBytes, List.take_left, List.drop_left]

/-! ## Integer codecs

`u8`/`u16`/`u32`/`u64` (and `i8`..`i64`) encode through
`bitcoin::consensus` as fixed-width little-endian byte strings
(`impl WithBitcoinEncoding` in `strict_encoding.rs`); the width in
bytes is the parameter `w`. -/

/-- Fixed-width unsigned integer strict encoding (little-endian). -/
def uint_strict_encode (w v : Nat) : Except Error (List Nat) :=
  .ok (leBytes w v)

/-- Fixed-width unsigned integer strict decoding (little-endian). -/
def uint_strict_decode (w : Nat) (input : List Nat) :
    Except Error (Nat × List Nat) := do
  let (bs, rest) ← readBytes w input
  return (fromLeBytes bs, rest)

/-- Fixed-width signed integer strict encoding: the two's-complement
little-endian byte string (`to_le_bytes` of an `iN` value). -/
def int_strict_encode (w : Nat) (v : Int) : Except Error (List Nat) :=
  .ok (leBytes w (v % (256 ^ w : Int)).toNat)

/-- Fixed-width signed integer strict decoding (two's complement). -/
def int_strict_decode (w : Nat) (input : List Nat) :
    Except Error (Int × List Nat) := do
  let (n, rest) ← uint_strict_decode w input
  return (if 2 * n < 256 ^ w then (n : Int) else (n : Int) - 256 ^ w, rest)

/-- `usize` strict encoding: fails with `ExceedMaxItems` above
`u16::MAX`, otherwise encodes as a 16-bit little-endian value
(`impl StrictEncode for usize`). -/
def usize_strict_encode (v : Nat) : Except Error (List Nat) :=
  if v > 0xFFFF then .error (.exceedMaxItems v) else .ok (leBytes 2 v)

/-- `usize` strict decoding: a 16-bit little-endian value
(`impl StrictDecode for usize`). -/
def usize_strict_decode (input : List Nat) : Except Error (Nat × List Nat) :=
  uint_strict_decode 2 input

/-! ## Byte strings (`impl StrictEncode for &[u8]` / `StrictDecode for Box<[u8]>`) -/

/-- Byte-string strict encoding: `usize` length followed by the raw
bytes. -/
def bytes_strict_encode (data : List Nat) : Except Error (List Nat) := do
  let lenBytes ← usize_strict_encode data.length
  return lenBytes ++ data

/-- Byte-string strict decoding: read a `usize` length, then exactly
that many raw bytes. -/
def bytes_strict_decode (input : List Nat) :
    Except Error (List Nat × List Nat) := do
  let (len, rest) ← usize_strict_decode input
  readBytes len rest

/-! ## Sequenced item helpers shared by `Vec` and map codecs -/

/-- Encode a list of items one after another, concatenating the
results (the `for`/`try_fold` loops of the `Vec` and map encoders). -/
def encodeItems {α : Type} (encT : α → Except Error (List Nat)) :
    List α → Except Error (List Nat)
  | [] => .ok []
  | x :: xs => do
    let b ← encT x
    let rest ← encodeItems encT xs
    return b ++ rest

/-- Decode exactly `n` consecutive items (the `for _ in 0..len` loops
of the `Vec` and map decoders). -/
def decodeItems {α : Type} (decT : List Nat → Except Error (α × List Nat)) :
    Nat → List Nat → Except Error (List α × List Nat)
  | 0, input => .ok ([], input)
  | n + 1, input => do
    let (x, rest) ← decT input
    let (xs, rest2) ← decodeItems decT n rest
    return (x :: xs, rest2)

/-! ## `Option`, `Vec`, `String` and usize-keyed maps -/

/-- `Option` strict encoding: a significator byte `0` (`None`) or `1`
followed by the value encoding (`Some`). -/
def option_strict_encode {α : Type} (encT : α → Except Error (List Nat)) :
    Option α → Except Error (List Nat)
  | none => .ok [0]
  | some v => do
    let bs ← encT v
    return 1 :: bs

/-- `Option` strict decoding: read the significator byte; `0` gives
`None`, `1` gives `Some` of the decoded value, anything else fails
with `WrongOptionalEncoding`. -/
def option_strict_decode {α : Type}
    (decT : List Nat → Except Error (α × List Nat)) (input : List Nat) :
    Except Error (Option α × List Nat) := do
  let (tag, rest) ← uint_strict_decode 1 input
  match tag with
  | 0 => return (none, rest)
  | 1 => do
    let (v, rest2) ← decT rest
    return (some v, rest2)
  | t => .error (.wrongOptionalEncoding t)

/-- `Vec` strict encoding: `usize`-encoded length (fails with
`ExceedMaxItems` past `u16::MAX`) followed by the item encodings. -/
def vec_strict_encode {α : Type} (encT : α → Except Error (List Nat))
    (v : List α) : Except Error (List Nat) := do
  let lenBytes ← usize_strict_encode v.length
  let body ← encodeItems encT v
  return lenBytes ++ body

/-- `Vec` strict decoding: read a `usize` length, then that many
items. -/
def vec_strict_decode {α : Type}
    (decT : List Nat → Except Error (α × List Nat)) (input : List Nat) :
    Except Error (List α × List Nat) := do
  let (len, rest) ← usize_strict_decode input
  decodeItems decT len rest

/-- `String` strict encoding: the encoding of its UTF-8 bytes
(`self.as_bytes().strict_encode(e)`).  A Rust `String` is modelled as
its list of UTF-8 bytes; validity of that byte list is checked by an
external predicate supplied to the decoder. -/
def string_strict_encode (s : List Nat) : Except Error (List Nat) :=
  bytes_strict_encode s

/-- `String` strict decoding: decode a `Vec<u8>` and run the external
UTF-8 validity check (`String::from_utf8`), failing with
`Utf8Conversion` on invalid bytes. -/
def string_strict_decode (isValidUtf8 : List Nat → Bool) (input : List Nat) :
    Except Error (List Nat × List Nat) := do
  let (bs, rest) ← vec_strict_decode (uint_strict_decode 1) input
  if isValidUtf8 bs then return (bs, rest) else .error .utf8Conversion

/-- `BTreeMap<usize, T>` strict encoding: the `usize` item count
followed by the values in key order — the keys themselves are never
written.  A `BTreeMap` is modelled as its sorted association list. -/
def btreeMap_strict_encode {α : Type} (encT : α → Except Error (List Nat))
    (m : List (Nat × α)) : Except Error (List Nat) := do
  let lenBytes ← usize_strict_encode m.length
  let body ← encodeItems encT (m.map Prod.snd)
  return lenBytes ++ body

/-- `BTreeMap<usize, T>` strict decoding: read a `usize` count `len`,
then `len` values, inserting them at the keys `0, 1, …, len - 1`. -/
def btreeMap_strict_decode {α : Type}
    (decT : List Nat → Except Error (α × List Nat)) (input : List Nat) :
    Except Error (List (Nat × α) × List Nat) := do
  let (len, rest) ← usize_strict_decode input
  let (vs, rest2) ← decodeItems decT len rest
  return ((List.range len).zip vs, rest2)

/-- Key order on association-list entries, used to model the
`HashMap → BTreeMap` conversion performed by the `HashMap` encoder. -/
def keyLE {α : Type} (a b : Nat × α) : Prop := a.1 ≤ b.1

instance {α : Type} : DecidableRel (@keyLE α) := fun a b => Nat.decLe a.1 b.1

instance {α : Type} : IsTotal (Nat × α) keyLE :=
  ⟨fun a b => Nat.le_total a.1 b.1⟩

instance {α : Type} : IsTrans (Nat × α) keyLE :=
  ⟨fun _ _ _ h₁ h₂ => Nat.le_trans h₁ h₂⟩

/-- `HashMap<usize, T>` strict encoding: collect into a `BTreeMap`
(sort the entries by key) and encode that
(`impl StrictEncode for HashMap<usize, T>`). -/
def hashMap_strict_encode {α : Type} (encT : α → Except Error (List Nat))
    (m : List (Nat × α)) : Except Error (List Nat) :=
  btreeMap_strict_encode encT (List.insertionSort keyLE m)

/-- `HashMap<usize, T>` strict decoding: decode a `BTreeMap` and
collect its entries (`impl StrictDecode for HashMap<usize, T>`). -/
def hashMap_strict_decode {α : Type}
    (decT : List Nat → Except Error (α × List Nat)) (input : List Nat) :
    Except Error (List (Nat × α) × List Nat) :=
  btreeMap_strict_decode decT input

/-! ## Convenience functions (`strict_encode` / `strict_decode`) -/

/-- Convenience `strict_encode`: serialize into a fresh byte vector. -/
def strict_encode {α : Type} (encT : α → Except Error (List Nat)) (v : α) :
    Except Error (List Nat) :=
  encT v

/-- Convenience `strict_decode`: decode from a byte buffer and fail
with `DataNotEntirelyConsumed` unless the decoder consumed every
byte. -/
def strict_decode {α : Type}
    (decT : List Nat → Except Error (α × List Nat)) (data : List Nat) :
    Except Error α :=
  match decT data with
  | .error e => .error e
  | .ok (v, rest) => if rest = [] then .ok v else .error .dataNotEntirelyConsumed

/-! ## Round-trip infrastructure -/

/-- `Roundtrips encT decT v`: encoding `v` succeeds, and decoding the
resulting bytes in front of any suffix returns exactly `v` and the
untouched suffix.  This is the compositional round-trip property of
the strict codec. -/
def Roundtrips {α : Type} (encT : α → Except Error (List Nat))
    (decT : List Nat → Except Error (α × List Nat)) (v : α) : Prop :=
  ∃ bs, encT v = .ok bs ∧ ∀ rest, decT (bs ++ rest) = .ok (v, rest)

theorem Roundtrips.strict_decode_strict_encode {α : Type}
    {encT : α → Except Error (List Nat)}
    {decT : List Nat → Except Error (α × List Nat)} {v : α}
    (h : Roundtrips encT decT v) :
    ∃ bs, strict_encode encT v = .ok bs ∧ strict_decode decT bs = .ok v := by
  obtain ⟨bs, henc, hdec⟩ := h
  refine ⟨bs, henc, ?_⟩
  have := hdec []
  simp only [List.append_nil] at this
  simp [strict_decode, this]

theorem readBytes_append_of_length {n : Nat} {bs : List Nat}
    (h : bs.length = n) (rest : List Nat) :
    readBytes n (bs ++ rest) = .ok (bs, rest) := by
  subst h; exact readBytes_append bs rest

theorem uint_strict_decode_leBytes {w v : Nat} (h : v < 256 ^ w)
    (rest : List Nat) :
    uint_strict_decode w (leBytes w v ++ rest) = .ok (v, rest) := by
  simp [uint_strict_decode,
    readBytes_append_of_length (leBytes_length w v) rest,
    fromLeBytes_leBytes_of_lt h]

theorem roundtrips_uint {w v : Nat} (h : v < 256 ^ w) :
    Roundtrips (uint_strict_encode w) (uint_strict_decode w) v :=
  ⟨leBytes w v, rfl, uint_strict_decode_leBytes h⟩

theorem roundtrips_int {w : Nat} {v : Int} (h1 : -(256 ^ w : Int) ≤ 2 * v)
    (h2 : 2 * v < (256 ^ w : Int)) :
    Roundtrips (int_strict_encode w) (int_strict_decode w) v := by
  set M : Int := (256 ^ w : Int) with hM
  have hMpos : 0 < M := by positivity
  have hMcast : ((256 ^ w : Nat) : Int) = M := by push_cast [hM]; ring
  have hmod : v % M = if 0 ≤ v then v else v + M := by
    rcases le_or_lt 0 v with hv | hv
    · rw [if_pos hv]
      exact Int.emod_eq_of_lt hv (by omega)
    · rw [if_neg (not_le.mpr hv)]
      have : (v + 1 * M) % M = v % M := Int.add_mul_emod_self
      rw [one_mul] at this
      rw [← this]
      exact Int.emod_eq_of_lt (by omega) (by omega)
    -- v % M is the two's-complement representative in [0, M)
  have hrep : 0 ≤ v % M ∧ v % M < M := by rw [hmod]; split <;> omega
  have hnlt : (v % M).toNat < 256 ^ w := by
    have := hrep.2
    omega
  refine ⟨leBytes w (v % M).toNat, rfl, fun rest => ?_⟩
  simp only [int_strict_decode, uint_strict_decode_leBytes hnlt, bind,
    Except.bind, pure, Except.pure]
  congr 1
  have hcast : (((v % M).toNat : Int)) = v % M :=
    Int.toNat_of_nonneg hrep.1
  rcases le_or_lt 0 v with hv | hv
  · have hvM : v % M = v := by rw [hmod, if_pos hv]
    have htest : 2 * (v % M).toNat < 256 ^ w := by
      omega
    rw [if_pos htest]
    simp only [Prod.mk.injEq, and_true]
    omega
  · have hvM : v % M = v + M := by rw [hmod, if_neg (not_le.mpr hv)]
    have htest : ¬ 2 * (v % M).toNat < 256 ^ w := by
      omega
    rw [if_neg htest]
    simp only [Prod.mk.injEq, and_true]
    omega

theorem usize_strict_decode_leBytes {v : Nat} (h : v ≤ 0xFFFF)
    (rest : List Nat) :
    usize_strict_decode (leBytes 2 v ++ rest) = .ok (v, rest) :=
  uint_strict_decode_leBytes (by norm_num; omega) rest

theorem roundtrips_usize {v : Nat} (h : v ≤ 0xFFFF) :
    Roundtrips usize_strict_encode usize_strict_decode v :=
  ⟨leBytes 2 v, by simp [usize_strict_encode, Nat.not_lt.mpr h, h],
    usize_strict_decode_leBytes h⟩

theorem roundtrips_bytes {data : List Nat} (h : data.length ≤ 0xFFFF) :
    Roundtrips bytes_strict_encode bytes_strict_decode data := by
  refine ⟨leBytes 2 data.length ++ data, ?_, fun rest => ?_⟩
  · simp [bytes_strict_encode, usize_strict_encode, Nat.not_lt.mpr h, bind,
      Except.bind, pure, Except.pure]
  · simp only [bytes_strict_decode, List.append_assoc,
      usize_strict_decode_leBytes h, bind, Except.bind]
    exact readBytes_append data rest

theorem uint1_strict_decode_cons (b : Nat) (rest : List Nat) :
    uint_strict_decode 1 (b :: rest) = .ok (b, rest) := by
  have : readBytes 1 (b :: rest) = .ok ([b], rest) := by
    simp [readBytes]
  simp [uint_strict_decode, this, fromLeBytes]

theorem roundtrips_option {α : Type} {encT : α → Except Error (List Nat)}
    {decT : List Nat → Except Error (α × List Nat)} {o : Option α}
    (h : ∀ x, o = some x → Roundtrips encT decT x) :
    Roundtrips (option_strict_encode encT) (option_strict_decode decT) o := by
  cases o with
  | none =>
    refine ⟨[0], rfl, fun rest => ?_⟩
    simp [option_strict_decode, uint1_strict_decode_cons, bind, Except.bind,
      pure, Except.pure]
  | some v =>
    obtain ⟨bs, henc, hdec⟩ := h v rfl
    refine ⟨1 :: bs, ?_, fun rest => ?_⟩
    · simp [option_strict_encode, henc, bind, Except.bind, pure, Except.pure]
    · simp [option_strict_decode, uint1_strict_decode_cons, hdec, bind,
        Except.bind, pure, Except.pure]

theorem roundtrips_items {α : Type} {encT : α → Except Error (List Nat)}
    {decT : List Nat → Except Error (α × List Nat)} {l : List α}
    (h : ∀ x ∈ l, Roundtrips encT decT x) :
    ∃ body, encodeItems encT l = .ok body ∧
      ∀ rest, decodeItems decT l.length (body ++ rest) = .ok (l, rest) := by
  induction l with
  | nil => exact ⟨[], rfl, fun rest => rfl⟩
  | cons x xs ih =>
    obtain ⟨bs, henc, hdec⟩ := h x (List.mem_cons_self x xs)
    obtain ⟨body, hbenc, hbdec⟩ := ih fun y hy => h y (List.mem_cons_of_mem x hy)
    refine ⟨bs ++ body, ?_, fun rest => ?_⟩
    · simp [encodeItems, henc, hbenc, bind, Except.bind, pure, Except.pure]
    · simp only [List.length_cons, decodeItems, List.append_assoc, hdec,
        bind, Except.bind, hbdec, pure, Except.pure]

theorem roundtrips_vec {α : Type} {encT : α → Except Error (List Nat)}
    {decT : List Nat → Except Error (α × List Nat)} {l : List α}
    (hlen : l.length ≤ 0xFFFF) (h : ∀ x ∈ l, Roundtrips encT decT x) :
    Roundtrips (vec_strict_encode encT) (vec_strict_decode decT) l := by
  obtain ⟨body, hbenc, hbdec⟩ := roundtrips_items h
  refine ⟨leBytes 2 l.length ++ body, ?_, fun rest => ?_⟩
  · simp [vec_strict_encode, usize_strict_encode, Nat.not_lt.mpr hlen, hbenc,
      bind, Except.bind, pure, Except.pure]
  · simp only [vec_strict_decode, List.append_assoc,
      usize_strict_decode_leBytes hlen, bind, Except.bind]
    exact hbdec rest

theorem decodeItems_u8_raw (s rest : List Nat) :
    decodeItems (uint_strict_decode 1) s.length (s ++ rest) = .ok (s, rest) := by
  induction s with
  | nil => rfl
  | cons b s ih =>
    simp only [List.length_cons, decodeItems, List.cons_append,
      uint1_strict_decode_cons, bind, Except.bind, ih, pure, Except.pure]

theorem roundtrips_string {isValidUtf8 : List Nat → Bool} {s : List Nat}
    (hv : isValidUtf8 s = true) (hlen : s.length ≤ 0xFFFF) :
    Roundtrips string_strict_encode (string_strict_decode isValidUtf8) s := by
  refine ⟨leBytes 2 s.length ++ s, ?_, fun rest => ?_⟩
  · simp [string_strict_encode, bytes_strict_encode, usize_strict_encode,
      Nat.not_lt.mpr hlen, bind, Except.bind, pure, Except.pure]
  · simp only [string_strict_decode, vec_strict_decode, List.append_assoc,
      usize_strict_decode_leBytes hlen, bind, Except.bind,
      decodeItems_u8_raw, hv, if_true, pure, Except.pure]

theorem btreeMap_decode_encode {α : Type}
    {encT : α → Except Error (List Nat)}
    {decT : List Nat → Except Error (α × List Nat)} {m : List (Nat × α)}
    (hlen : m.length ≤ 0xFFFF) (hvals : ∀ p ∈ m, Roundtrips encT decT p.2) :
    ∃ bs, btreeMap_strict_encode encT m = .ok bs ∧
      ∀ rest, btreeMap_strict_decode decT (bs ++ rest) =
        .ok ((List.range m.length).zip (m.map Prod.snd), rest) := by
  have hvals' : ∀ x ∈ m.map Prod.snd, Roundtrips encT decT x := by
    intro x hx
    obtain ⟨p, hp, rfl⟩ := List.mem_map.mp hx
    exact hvals p hp
  obtain ⟨body, hbenc, hbdec⟩ := roundtrips_items hvals'
  refine ⟨leBytes 2 m.length ++ body, ?_, fun rest => ?_⟩
  · simp [btreeMap_strict_encode, usize_strict_encode, Nat.not_lt.mpr hlen,
      hbenc, bind, Except.bind, pure, Except.pure]
  · have hbdec' := hbdec rest
    rw [List.length_map] at hbdec'
    simp only [btreeMap_strict_decode, List.append_assoc,
      usize_strict_decode_leBytes hlen, bind, Except.bind, hbdec', pure,
      Except.pure]

theorem zip_range_eq_self_iff {α : Type} (m : List (Nat × α)) :
    (List.range m.length).zip (m.map Prod.snd) = m ↔
      m.map Prod.fst = List.range m.length := by
  constructor
  · intro h
    conv_lhs => rw [← h]
    exact List.map_fst_zip _ _ (by simp)
  · intro h
    exact (List.zip_of_prod h rfl).symm

theorem sorted_keys_insertionSort {α : Type} (m : List (Nat × α)) :
    List.Pairwise (· ≤ ·) ((List.insertionSort keyLE m).map Prod.fst) := by
  have := List.sorted_insertionSort keyLE m
  exact List.pairwise_map.mpr this

theorem pairwise_le_range (n : Nat) :
    List.Pairwise (· ≤ ·) (List.range n) :=
  List.Pairwise.imp (fun h => Nat.le_of_lt h) (List.pairwise_lt_range n)

/-- If a usize-keyed association list has keys that are a permutation
of `0..n-1`, sorting it by key (the `HashMap → BTreeMap` collection
step) yields keys exactly `0, 1, …, n-1` in order. -/
theorem insertionSort_keys_of_perm_range {α : Type} {m : List (Nat × α)}
    (hperm : (m.map Prod.fst).Perm (List.range m.length)) :
    (List.insertionSort keyLE m).map Prod.fst =
      List.range (List.insertionSort keyLE m).length := by
  have hp : (List.insertionSort keyLE m).Perm m := List.perm_insertionSort _ m
  have hlen : (List.insertionSort keyLE m).length = m.length := hp.length_eq
  rw [hlen]
  exact List.eq_of_perm_of_sorted (r := (· ≤ ·))
    ((hp.map Prod.fst).trans hperm) (sorted_keys_insertionSort m)
    (pairwise_le_range m.length)

instance {ε α : Type} [DecidableEq ε] [DecidableEq α] :
    DecidableEq (Except ε α) := fun a b =>
  match a, b with
  | .ok x, .ok y =>
    if h : x = y then .isTrue (by rw [h])
    else .isFalse fun hc => h (Except.ok.inj hc)
  | .error e, .error f =>
    if h : e = f then .isTrue (by rw [h])
    else .isFalse fun hc => h (Except.error.inj hc)
  | .ok _, .error _ => .isFalse fun hc => Except.noConfusion hc
  | .error _, .ok _ => .isFalse fun hc => Except.noConfusion hc

theorem except_bind_ok {ε α β : Type} (a : α) (f : α → Except ε β) :
    (Except.ok a : Except ε α) >>= f = f a := rfl

theorem except_bind_error {ε α β : Type} (e : ε) (f : α → Except ε β) :
    (Except.error e : Except ε α) >>= f = .error e := rfl

theorem decodeItems_length {α : Type}
    {decT : List Nat → Except Error (α × List Nat)} :
    ∀ {n : Nat} {input : List Nat} {vs : List α} {rest : List Nat},
      decodeItems decT n input = .ok (vs, rest) → vs.length = n := by
  intro n
  induction n with
  | zero =>
    intro input vs rest h
    simp only [decodeItems] at h
    cases h
    rfl
  | succ n ih =>
    intro input vs rest h
    simp only [decodeItems] at h
    cases hx : decT input with
    | error e => rw [hx, except_bind_error] at h; cases h
    | ok p =>
      obtain ⟨x, rest1⟩ := p
      rw [hx, except_bind_ok] at h
      cases hxs : decodeItems decT n rest1 with
      | error e => rw [hxs, except_bind_error] at h; cases h
      | ok q =>
        obtain ⟨xs, rest2⟩ := q
        rw [hxs, except_bind_ok] at h
        simp only [pure, Except.pure, Except.ok.injEq, Prod.mk.injEq] at h
        obtain ⟨⟨rfl, rfl⟩, rfl⟩ := h
        simp [ih hxs]

theorem vec_strict_encode_exceed {α : Type}
    (encT : α → Except Error (List Nat)) (l : List α)
    (h : l.length > 0xFFFF) :
    vec_strict_encode encT l = .error (.exceedMaxItems l.length) := by
  unfold vec_strict_encode
  rw [usize_strict_encode, if_pos h]
  rfl

/-- C5 counterexample: the claim "for every value `v` of a supported
scalar or collection type, `strict_decode(strict_encode(v))` succeeds
and returns `v`" fails as stated.  At the concrete usize-keyed map
`{1 ↦ 2}` the round trip silently returns `{0 ↦ 2}`, and at the
concrete `Vec<u8>` of 65536 zero bytes `strict_encode` itself fails
with `ExceedMaxItems`. -/
theorem strict_encoding_roundtrip_cex :
    strict_encode (btreeMap_strict_encode (uint_strict_encode 1)) [(1, 2)] =
      .ok [1, 0, 2] ∧
    strict_decode (btreeMap_strict_decode (uint_strict_decode 1)) [1, 0, 2] =
      .ok [(0, 2)] ∧
    [(0, 2)] ≠ [(1, 2)] ∧
    strict_encode (vec_strict_encode (uint_strict_encode 1))
        (List.replicate 65536 0) =
      .error (.exceedMaxItems 65536) := by
  refine ⟨rfl, rfl, by decide, ?_⟩
  have h : (List.replicate 65536 (0 : Nat)).length = 65536 :=
    List.length_replicate 65536 0
  have h2 := vec_strict_encode_exceed (uint_strict_encode 1)
    (List.replicate 65536 (0 : Nat)) (by rw [h]; norm_num)
  rw [h] at h2
  rw [strict_encode]
  exact h2

/-- C5 (amended): `strict_decode(strict_encode(v)) = Ok(v)` for every
value of the supported scalar and collection types, provided the value
respects the format's own limits: integers within their fixed width,
byte strings / strings / `Vec`s / maps with at most `0xFFFF` items,
strings made of valid UTF-8 bytes, nested elements round-tripping, and
usize-keyed maps whose key set is exactly `0..len-1` (for `HashMap`,
a permutation thereof, with the round trip returning the same entries
sorted by key). -/
theorem strict_encoding_roundtrip :
    (∀ w v : Nat, v < 256 ^ w →
      ∃ bs, strict_encode (uint_strict_encode w) v = .ok bs ∧
        strict_decode (uint_strict_decode w) bs = .ok v) ∧
    (∀ (w : Nat) (v : Int), -(256 ^ w : Int) ≤ 2 * v →
      2 * v < (256 ^ w : Int) →
      ∃ bs, strict_encode (int_strict_encode w) v = .ok bs ∧
        strict_decode (int_strict_decode w) bs = .ok v) ∧
    (∀ data : List Nat, data.length ≤ 0xFFFF →
      ∃ bs, strict_encode bytes_strict_encode data = .ok bs ∧
        strict_decode bytes_strict_decode bs = .ok data) ∧
    (∀ (isValidUtf8 : List Nat → Bool) (s : List Nat),
      isValidUtf8 s = true → s.length ≤ 0xFFFF →
      ∃ bs, strict_encode string_strict_encode s = .ok bs ∧
        strict_decode (string_strict_decode isValidUtf8) bs = .ok s) ∧
    (∀ (α : Type) (encT : α → Except Error (List Nat))
      (decT : List Nat → Except Error (α × List Nat)) (o : Option α),
      (∀ x, o = some x → Roundtrips encT decT x) →
      ∃ bs, strict_encode (option_strict_encode encT) o = .ok bs ∧
        strict_decode (option_strict_decode decT) bs = .ok o) ∧
    (∀ (α : Type) (encT : α → Except Error (List Nat))
      (decT : List Nat → Except Error (α × List Nat)) (l : List α),
      l.length ≤ 0xFFFF → (∀ x ∈ l, Roundtrips encT decT x) →
      ∃ bs, strict_encode (vec_strict_encode encT) l = .ok bs ∧
        strict_decode (vec_strict_decode decT) bs = .ok l) ∧
    (∀ (α : Type) (encT : α → Except Error (List Nat))
      (decT : List Nat → Except Error (α × List Nat)) (m : List (Nat × α)),
      m.length ≤ 0xFFFF → (∀ p ∈ m, Roundtrips encT decT p.2) →
      m.map Prod.fst = List.range m.length →
      ∃ bs, strict_encode (btreeMap_strict_encode encT) m = .ok bs ∧
        strict_decode (btreeMap_strict_decode decT) bs = .ok m) ∧
    (∀ (α : Type) (encT : α → Except Error (List Nat))
      (decT : List Nat → Except Error (α × List Nat)) (m : List (Nat × α)),
      m.length ≤ 0xFFFF → (∀ p ∈ m, Roundtrips encT decT p.2) →
      (m.map Prod.fst).Perm (List.range m.length) →
      ∃ bs m', strict_encode (hashMap_strict_encode encT) m = .ok bs ∧
        strict_decode (hashMap_strict_decode decT) bs = .ok m' ∧
        m'.Perm m) := by
  refine ⟨?_, ?_, ?_, ?_, ?_, ?_, ?_, ?_⟩
  · intro w v h
    exact (roundtrips_uint h).strict_decode_strict_encode
  · intro w v h1 h2
    exact (roundtrips_int h1 h2).strict_decode_strict_encode
  · intro data h
    exact (roundtrips_bytes h).strict_decode_strict_encode
  · intro isValidUtf8 s hv hlen
    exact (roundtrips_string hv hlen).strict_decode_strict_encode
  · intro α encT decT o h
    exact (roundtrips_option h).strict_decode_strict_encode
  · intro α encT decT l hlen h
    exact (roundtrips_vec hlen h).strict_decode_strict_encode
  · intro α encT decT m hlen hvals hkeys
    obtain ⟨bs, henc, hdec⟩ := btreeMap_decode_encode hlen hvals
    refine ⟨bs, henc, ?_⟩
    have h0 := hdec []
    rw [List.append_nil] at h0
    have hzip : (List.range m.length).zip (m.map Prod.snd) = m :=
      (zip_range_eq_self_iff m).mpr hkeys
    rw [hzip] at h0
    simp [strict_decode, h0]
  · intro α encT decT m hlen hvals hperm
    have hp : (List.insertionSort keyLE m).Perm m := List.perm_insertionSort _ m
    have hlen' : (List.insertionSort keyLE m).length ≤ 0xFFFF := by
      rw [hp.length_eq]; exact hlen
    have hvals' : ∀ p ∈ List.insertionSort keyLE m, Roundtrips encT decT p.2 :=
      fun p hpm => hvals p (hp.mem_iff.mp hpm)
    have hkeys := insertionSort_keys_of_perm_range hperm
    obtain ⟨bs, henc, hdec⟩ := btreeMap_decode_encode hlen' hvals'
    refine ⟨bs, List.insertionSort keyLE m, henc, ?_, hp⟩
    have h0 := hdec []
    rw [List.append_nil] at h0
    have hzip : (List.range (List.insertionSort keyLE m).length).zip
        ((List.insertionSort keyLE m).map Prod.snd) =
        List.insertionSort keyLE m :=
      (zip_range_eq_self_iff _).mpr hkeys
    rw [hzip] at h0
    simp [strict_decode, hashMap_strict_decode, h0]

theorem roundtrips_u8_of_lt {v : Nat} (h : v < 256) :
    Roundtrips (uint_strict_encode 1) (uint_strict_decode 1) v :=
  roundtrips_uint (by simpa using h)

/-- C5 witness: the amended round trip evaluated at concrete inputs —
the `u16` value 999, the `i8` value -5, a 3-byte string, `Some 7`, a
two-element `Vec<u8>`, the map `{0 ↦ 8, 1 ↦ 9}` and the same map with
its entries listed out of order. -/
theorem strict_encoding_roundtrip_witness :
    (∃ bs, strict_encode (uint_strict_encode 2) 999 = .ok bs ∧
      strict_decode (uint_strict_decode 2) bs = .ok 999) ∧
    (∃ bs, strict_encode (int_strict_encode 1) (-5) = .ok bs ∧
      strict_decode (int_strict_decode 1) bs = .ok (-5)) ∧
    (∃ bs, strict_encode bytes_strict_encode [10, 20, 30] = .ok bs ∧
      strict_decode bytes_strict_decode bs = .ok [10, 20, 30]) ∧
    (∃ bs, strict_encode string_strict_encode [104, 105] = .ok bs ∧
      strict_decode (string_strict_decode (fun _ => true)) bs =
        .ok [104, 105]) ∧
    (∃ bs, strict_encode (option_strict_encode (uint_strict_encode 1))
        (some 7) = .ok bs ∧
      strict_decode (option_strict_decode (uint_strict_decode 1)) bs =
        .ok (some 7)) ∧
    (∃ bs, strict_encode (vec_strict_encode (uint_strict_encode 1))
        [3, 4] = .ok bs ∧
      strict_decode (vec_strict_decode (uint_strict_decode 1)) bs =
        .ok [3, 4]) ∧
    (∃ bs, strict_encode (btreeMap_strict_encode (uint_strict_encode 1))
        [(0, 8), (1, 9)] = .ok bs ∧
      strict_decode (btreeMap_strict_decode (uint_strict_decode 1)) bs =
        .ok [(0, 8), (1, 9)]) ∧
    (∃ bs m', strict_encode (hashMap_strict_encode (uint_strict_encode 1))
        [(1, 9), (0, 8)] = .ok bs ∧
      strict_decode (hashMap_strict_decode (uint_strict_decode 1)) bs =
        .ok m' ∧ m'.Perm [(1, 9), (0, 8)]) := by
  obtain ⟨h1, h2, h3, h4, h5, h6, h7, h8⟩ := strict_encoding_roundtrip
  refine ⟨h1 2 999 (by norm_num), h2 1 (-5) (by norm_num) (by norm_num),
    h3 [10, 20, 30] (by norm_num), h4 (fun _ => true) [104, 105] rfl
      (by norm_num), ?_, ?_, ?_, ?_⟩
  · refine h5 Nat (uint_strict_encode 1) (uint_strict_decode 1) (some 7) ?_
    intro x hx
    cases hx
    exact roundtrips_uint (by norm_num)
  · refine h6 Nat (uint_strict_encode 1) (uint_strict_decode 1) [3, 4]
      (by norm_num) ?_
    intro x hx
    simp only [List.mem_cons, List.not_mem_nil, or_false] at hx
    rcases hx with rfl | rfl <;> exact roundtrips_u8_of_lt (by norm_num)
  · refine h7 Nat (uint_strict_encode 1) (uint_strict_decode 1)
      [(0, 8), (1, 9)] (by norm_num) ?_ (by decide)
    intro p hp
    simp only [List.mem_cons, List.not_mem_nil, or_false] at hp
    rcases hp with rfl | rfl <;> exact roundtrips_u8_of_lt (by norm_num)
  · refine h8 Nat (uint_strict_encode 1) (uint_strict_decode 1)
      [(1, 9), (0, 8)] (by norm_num) ?_ (by decide)
    intro p hp
    simp only [List.mem_cons, List.not_mem_nil, or_false] at hp
    rcases hp with rfl | rfl <;> exact roundtrips_u8_of_lt (by norm_num)

/-- C9: the convenience `strict_decode` fails with
`DataNotEntirelyConsumed` whenever the inner decoder succeeds without
consuming the whole buffer; in particular, appending one extra byte to
any valid encoding makes `strict_decode` fail with exactly that
error. -/
theorem strict_decode_not_entirely_consumed :
    (∀ (α : Type) (decT : List Nat → Except Error (α × List Nat))
      (data : List Nat) (v : α) (rest : List Nat),
      decT data = .ok (v, rest) → rest ≠ [] →
      strict_decode decT data = .error .dataNotEntirelyConsumed) ∧
    (∀ (α : Type) (encT : α → Except Error (List Nat))
      (decT : List Nat → Except Error (α × List Nat)) (v : α)
      (bs : List Nat) (b : Nat),
      Roundtrips encT decT v → encT v = .ok bs →
      strict_decode decT (bs ++ [b]) = .error .dataNotEntirelyConsumed) := by
  constructor
  · intro α decT data v rest h hne
    simp [strict_decode, h, hne]
  · intro α encT decT v bs b hrt henc
    obtain ⟨bs', henc', hdec'⟩ := hrt
    rw [henc] at henc'
    cases henc'
    have := hdec' [b]
    simp [strict_decode, this]

/-- C9 witness: the valid one-byte encoding `[7]` of the `u8` value 7
with the extra byte 8 appended is rejected with
`DataNotEntirelyConsumed`, through both halves of the theorem. -/
theorem strict_decode_not_entirely_consumed_witness :
    strict_decode (uint_strict_decode 1) [7, 8] =
      .error .dataNotEntirelyConsumed ∧
    strict_decode (uint_strict_decode 1) ([7] ++ [8]) =
      .error .dataNotEntirelyConsumed :=
  ⟨strict_decode_not_entirely_consumed.1 Nat (uint_strict_decode 1)
      [7, 8] 7 [8] (by rfl) (by decide),
    strict_decode_not_entirely_consumed.2 Nat (uint_strict_encode 1)
      (uint_strict_decode 1) 7 [7] 8 (roundtrips_uint (by norm_num))
      (by rfl)⟩

/-- C10: the usize-keyed map codecs discard keys.  Encoding a
`BTreeMap<usize, T>` writes exactly the `Vec` encoding of its values
in key order; decoding always returns a map whose keys are exactly
`0..len-1`; consequently the round trip re-indexes the entries of any
sorted map as `0..len-1` and recovers the original map exactly when
its keys were already `0..len-1`; the `HashMap` encoder is the
`BTreeMap` encoder after sorting the entries by key. -/
theorem map_strict_encoding_discards_keys :
    (∀ (α : Type) (encT : α → Except Error (List Nat)) (m : List (Nat × α)),
      btreeMap_strict_encode encT m =
        vec_strict_encode encT (m.map Prod.snd)) ∧
    (∀ (α : Type) (decT : List Nat → Except Error (α × List Nat))
      (input : List Nat) (l : List (Nat × α)) (rest : List Nat),
      btreeMap_strict_decode decT input = .ok (l, rest) →
      l.map Prod.fst = List.range l.length) ∧
    (∀ (α : Type) (encT : α → Except Error (List Nat))
      (decT : List Nat → Except Error (α × List Nat)) (m : List (Nat × α))
      (bs : List Nat),
      m.length ≤ 0xFFFF → (∀ p ∈ m, Roundtrips encT decT p.2) →
      strict_encode (btreeMap_strict_encode encT) m = .ok bs →
      strict_decode (btreeMap_strict_decode decT) bs =
        .ok ((List.range m.length).zip (m.map Prod.snd))) ∧
    (∀ (α : Type) (encT : α → Except Error (List Nat))
      (decT : List Nat → Except Error (α × List Nat)) (m : List (Nat × α))
      (bs : List Nat),
      m.length ≤ 0xFFFF → (∀ p ∈ m, Roundtrips encT decT p.2) →
      strict_encode (btreeMap_strict_encode encT) m = .ok bs →
      (strict_decode (btreeMap_strict_decode decT) bs = .ok m ↔
        m.map Prod.fst = List.range m.length)) ∧
    (∀ (α : Type) (encT : α → Except Error (List Nat)) (m : List (Nat × α)),
      hashMap_strict_encode encT m =
        btreeMap_strict_encode encT (List.insertionSort keyLE m)) := by
  refine ⟨?_, ?_, ?_, ?_, ?_⟩
  · intro α encT m
    simp [btreeMap_strict_encode, vec_strict_encode, List.length_map]
  · intro α decT input l rest h
    simp only [btreeMap_strict_decode] at h
    cases hu : usize_strict_decode input with
    | error e => rw [hu, except_bind_error] at h; cases h
    | ok p =>
      obtain ⟨len, rest1⟩ := p
      rw [hu, except_bind_ok] at h
      cases hi : decodeItems decT len rest1 with
      | error e => rw [hi, except_bind_error] at h; cases h
      | ok q =>
        obtain ⟨vs, rest2⟩ := q
        rw [hi, except_bind_ok] at h
        simp only [pure, Except.pure, Except.ok.injEq, Prod.mk.injEq] at h
        obtain ⟨rfl, rfl⟩ := h
        have hv : vs.length = len := decodeItems_length hi
        have hlz : ((List.range len).zip vs).length = len := by
          simp [List.length_zip, hv]
        rw [hlz]
        exact List.map_fst_zip _ _ (by simp [hv])
  · intro α encT decT m bs hlen hvals henc
    obtain ⟨bs', henc', hdec'⟩ := btreeMap_decode_encode hlen hvals
    rw [strict_encode] at henc
    rw [henc] at henc'
    cases henc'
    have h0 := hdec' []
    rw [List.append_nil] at h0
    simp [strict_decode, h0]
  · intro α encT decT m bs hlen hvals henc
    obtain ⟨bs', henc', hdec'⟩ := btreeMap_decode_encode hlen hvals
    rw [strict_encode] at henc
    rw [henc] at henc'
    cases henc'
    have h0 := hdec' []
    rw [List.append_nil] at h0
    have hdec0 : strict_decode (btreeMap_strict_decode decT) bs =
        .ok ((List.range m.length).zip (m.map Prod.snd)) := by
      simp [strict_decode, h0]
    rw [hdec0]
    constructor
    · intro h
      exact (zip_range_eq_self_iff m).mp (Except.ok.inj h)
    · intro h
      rw [(zip_range_eq_self_iff m).mpr h]
  · intro α encT m
    rfl

/-- C10 witness: at the concrete sorted map `{1 ↦ 5, 3 ↦ 6}` (keys not
contiguous) the round trip returns `{0 ↦ 5, 1 ↦ 6}`, so decoded keys
are `0..1` and the round-trip equivalence is falsified exactly by the
key condition. -/
theorem map_strict_encoding_discards_keys_witness :
    ((List.range 2).zip ([(1, 5), (3, 6)].map Prod.snd) =
      ([(0, 5), (1, 6)] : List (Nat × Nat))) ∧
    strict_decode (btreeMap_strict_decode (uint_strict_decode 1))
        [2, 0, 5, 6] = .ok [(0, 5), (1, 6)] ∧
    ¬ (strict_decode (btreeMap_strict_decode (uint_strict_decode 1))
        [2, 0, 5, 6] = .ok [(1, 5), (3, 6)]) := by
  have hvals : ∀ p ∈ ([(1, 5), (3, 6)] : List (Nat × Nat)),
      Roundtrips (uint_strict_encode 1) (uint_strict_decode 1) p.2 := by
    intro p hp
    simp only [List.mem_cons, List.not_mem_nil, or_false] at hp
    rcases hp with rfl | rfl <;> exact roundtrips_u8_of_lt (by norm_num)
  have henc : strict_encode
      (btreeMap_strict_encode (uint_strict_encode 1)) [(1, 5), (3, 6)] =
      .ok [2, 0, 5, 6] := by rfl
  have h3 := map_strict_encoding_discards_keys.2.2.1 Nat
    (uint_strict_encode 1) (uint_strict_decode 1) [(1, 5), (3, 6)]
    [2, 0, 5, 6] (by norm_num) hvals henc
  have h4 := (map_strict_encoding_discards_keys.2.2.2.1 Nat
    (uint_strict_encode 1) (uint_strict_decode 1) [(1, 5), (3, 6)]
    [2, 0, 5, 6] (by norm_num) hvals henc)
  refine ⟨by decide, ?_, ?_⟩
  · rw [h3]; decide
  · intro hcontra
    have := h4.mp hcontra
    exact absurd this (by decide)

/-! ## Outpoint blinding (src/bp/blind.rs)

The SHA-256 compression function itself is an external collaborator
(spec §1, §6); it enters as the parameter `sha256`.  The
`bitcoin_hashes` engine of `sha256d::Hash` accumulates the input
stream and finalizes by applying SHA-256 twice. -/

/-- Data required to generate or reveal the information about a
blinded transaction outpoint (`OutpointReveal`): a `u32` blinding
factor, the 32 raw txid bytes, and a `u16` output number. -/
structure OutpointReveal where
  blinding : Nat
  txid : List Nat
  vout : Nat
  deriving DecidableEq, Repr

/-- `engine.input(bytes)`: append bytes to the accumulated stream. -/
def engineInput (e bs : List Nat) : List Nat := e ++ bs

/-- `OutpointHash::from_engine`: finalize a `sha256d` engine — SHA-256
applied twice to the accumulated stream. -/
def sha256dFromEngine (sha256 : List Nat → List Nat) (e : List Nat) :
    List Nat :=
  sha256 (sha256 e)

/-- `OutpointReveal::outpoint_hash`: feed the big-endian blinding
factor, the raw txid bytes and the big-endian vout into a fresh
`sha256d` engine and finalize it. -/
def outpoint_hash (sha256 : List Nat → List Nat) (r : OutpointReveal) :
    List Nat :=
  sha256dFromEngine sha256
    (engineInput (engineInput (engineInput [] (beBytes 4 r.blinding)) r.txid)
      (beBytes 2 r.vout))

/-! ## Commit-verify algebra (src/primitives/commit_verify.rs)

The default `reveal_verify` of `EmbeddedCommitment` recomputes the
commitment from the recovered container and compares; any error during
recomputation yields `false`.  It is generic in the commitment type
`C`, the container type `Cont` and the error type `E`. -/

/-- Default `EmbeddedCommitment::reveal_verify`: recompute the
commitment from `get_original_container` and compare for equality,
mapping any error to `false`. -/
def reveal_verify {C Cont E : Type} [DecidableEq C]
    (get_original_container : C → Cont)
    (commit_to : Cont → List Nat → Except E C)
    (c : C) (msg : List Nat) : Bool :=
  match commit_to (get_original_container c) msg with
  | .ok commitment => decide (commitment = c)
  | .error _ => false

theorem reveal_verify_eq_true_iff {C Cont E : Type} [DecidableEq C]
    (get_original_container : C → Cont)
    (commit_to : Cont → List Nat → Except E C) (c : C) (msg : List Nat) :
    reveal_verify get_original_container commit_to c msg = true ↔
      commit_to (get_original_container c) msg = .ok c := by
  rw [reveal_verify]
  cases h : commit_to (get_original_container c) msg with
  | ok commitment => simp [eq_comm]
  | error e => simp

/-! ## Deterministic bitcoin commitments (src/bp/dbc)

Elliptic-curve points, public-key hashes and SHA-256 digests are
external collaborators; they enter as the type parameters `Point`,
`PKHash`, `H256` and the function parameters `tweak` (the LNPBP-1
key-tweak procedure, `none` modelling its `InvalidTweak` rejection),
`ser` (compressed/uncompressed point serialization) and `hash160`
(the public-key-hash digest). -/

/-- Modelled from the spec: `bp::dbc::Error` lives in
`src/bp/dbc/error.rs`, which is missing from the excerpt.  The three
lockscript variants are named at their construction sites in
`lockscript.rs`; `invalidTweak` models the §4.2/§7 `InvalidTweak`
error of the key-tweak primitive. -/
inductive DbcError where
  | lockscriptContainsNoKeysOrHashes : DbcError
  | lockscriptContainsUnknownHashesOnly : DbcError
  | lockscriptKeyNotFound : DbcError
  | invalidTweak : DbcError
  deriving DecidableEq, Repr

/-- Modelled from the spec (§4.2): `PubkeyCommitment` lives in
`src/bp/dbc/pubkey.rs`, which is missing from the excerpt.  It pairs
the original key with its tweaked counterpart: `taproot.rs` reads the
field `original`, and `lockscript.rs` dereferences it to the tweaked
key. -/
structure PubkeyCommitment (Point : Type) where
  original : Point
  tweaked : Point
  deriving DecidableEq, Repr

/-- Modelled from the spec (§4.2): `PubkeyCommitment::commit_embed`
derives the tweaked key deterministically from the original key and
the message via the external `tweak` procedure and fails hard
(`InvalidTweak`) when the tweak is rejected. -/
def pubkey_commit_embed {Point : Type}
    (tweak : Point → List Nat → Option Point) (pk : Point)
    (msg : List Nat) : Except DbcError (PubkeyCommitment Point) :=
  match tweak pk msg with
  | some t => .ok ⟨pk, t⟩
  | none => .error .invalidTweak

/-- `PubkeyCommitment::get_original_container` (modelled from the
spec, §4.2): the container of a key-tweak commitment is the original
key. -/
def pubkey_get_original_container {Point : Type}
    (pc : PubkeyCommitment Point) : Point :=
  pc.original

/-! ### Script trees (external Miniscript capability, spec §6) -/

/-- Modelled from the spec (§6): the script AST consumed by
`lockscript.rs` — a tree whose leaves are literal public keys (a curve
point together with its compressed/uncompressed encoding flag, Rust
`bitcoin::PublicKey`), literal public-key hashes (`pk_h`), or key-free
opcodes (timelocks, hash-preimage conditions); combinator nodes
recurse into their children, arbitrary arity being represented by
nesting of binary nodes. -/
inductive MSTree (Point PKHash : Type) where
  | pk (key : Point) (compressed : Bool) : MSTree Point PKHash
  | pkh (h : PKHash) : MSTree Point PKHash
  | opcode : MSTree Point PKHash
  | node (l r : MSTree Point PKHash) : MSTree Point PKHash
  deriving DecidableEq

/-- The three interior-mutable counters of
`LockscriptCommitment::commit_embed` (`keys_count`, `hashes_count`,
`found`), threaded as explicit accumulator state. -/
structure Counters where
  keys_count : Nat
  hashes_count : Nat
  found : Nat
  deriving DecidableEq, Repr

/-- Modelled from the spec (§6): the substitution visitor
`replace_pubkeys_and_hashes` of the script capability.  `key_fn` is
called once per key leaf with the parsed curve point and `hash_fn`
once per hash leaf; `none`, or returning the point unchanged, leaves
the leaf untouched, while a genuinely new point is stored in
compressed form (spec §3: the stored commitment always normalizes to
compressed form).  The closure state `σ` models the `RefCell` counters
of `lockscript.rs`. -/
def replace_pubkeys_and_hashes {Point PKHash σ : Type} [DecidableEq Point]
    (key_fn : σ → Point → σ × Option Point)
    (hash_fn : σ → PKHash → σ × Option PKHash) :
    σ → MSTree Point PKHash → σ × MSTree Point PKHash
  | s, .pk p c =>
    match key_fn s p with
    | (s', none) => (s', .pk p c)
    | (s', some q) => if q = p then (s', .pk p c) else (s', .pk q true)
  | s, .pkh h =>
    match hash_fn s h with
    | (s', none) => (s', .pkh h)
    | (s', some g) => (s', .pkh g)
  | s, .opcode => (s, .opcode)
  | s, .node l r =>
    let sl := replace_pubkeys_and_hashes key_fn hash_fn s l
    let sr := replace_pubkeys_and_hashes key_fn hash_fn sl.1 r
    (sr.1, .node sl.2 sr.2)

/-- `LockscriptContainer`: the original script plus the target public
key. -/
structure LockscriptContainer (Point PKHash : Type) where
  script : MSTree Point PKHash
  pubkey : Point
  deriving DecidableEq

/-- `LockscriptCommitment`: newtype around the rewritten script
(`wrapper!` in `lockscript.rs`). -/
structure LockscriptCommitment (Point PKHash : Type) where
  script : MSTree Point PKHash
  deriving DecidableEq

/-- `bitcoin::PublicKey { compressed, key }.pubkey_hash()`: the
external hash of the chosen serialization of the point. -/
def pubkey_hash {Point PKHash : Type} (ser : Bool → Point → List Nat)
    (hash160 : List Nat → PKHash) (compressed : Bool) (p : Point) : PKHash :=
  hash160 (ser compressed p)

/-- The key closure of `LockscriptCommitment::commit_embed`: count
every key seen; on a key equal to the container's target key, count a
find and substitute the tweaked key, otherwise return the key
unchanged. -/
def lockscript_key_fn {Point : Type} [DecidableEq Point]
    (target tweaked : Point) (s : Counters) (p : Point) :
    Counters × Option Point :=
  if p = target then
    ({ s with keys_count := s.keys_count + 1, found := s.found + 1 },
      some tweaked)
  else
    ({ s with keys_count := s.keys_count + 1 }, some p)

/-- The hash closure of `LockscriptCommitment::commit_embed`: count
every hash seen; on the hash of the target key, count a find and
substitute the tweaked key's hash, otherwise return the hash
unchanged. -/
def lockscript_hash_fn {PKHash : Type} [DecidableEq PKHash]
    (original_hash tweaked_hash : PKHash) (s : Counters) (h : PKHash) :
    Counters × Option PKHash :=
  if h = original_hash then
    ({ s with hashes_count := s.hashes_count + 1, found := s.found + 1 },
      some tweaked_hash)
  else
    ({ s with hashes_count := s.hashes_count + 1 }, some h)

/-- `LockscriptCommitment::commit_embed` (LNPBP-2): compute the
target's compressed-key hash and the tweaked key via LNPBP-1, traverse
the whole script substituting matching keys and hashes while counting
`(found, keys, hashes)`, and classify the outcome by that triple.  The
overlapping Rust match arms `(0,0,0) | (0,0,_) | (0,_,_) | (_,_,_)`
are written as disjoint patterns with the same priority semantics. -/
def lockscript_commit_embed {Point PKHash : Type} [DecidableEq Point]
    [DecidableEq PKHash] (tweak : Point → List Nat → Option Point)
    (ser : Bool → Point → List Nat) (hash160 : List Nat → PKHash)
    (container : LockscriptContainer Point PKHash) (msg : List Nat) :
    Except DbcError (LockscriptCommitment Point PKHash) :=
  match pubkey_commit_embed tweak container.pubkey msg with
  | .error e => .error e
  | .ok pc =>
    let st := replace_pubkeys_and_hashes
      (lockscript_key_fn container.pubkey pc.tweaked)
      (lockscript_hash_fn (pubkey_hash ser hash160 true container.pubkey)
        (pubkey_hash ser hash160 true pc.tweaked))
      ⟨0, 0, 0⟩ container.script
    match st.1.found, st.1.keys_count, st.1.hashes_count with
    | 0, 0, 0 => .error .lockscriptContainsNoKeysOrHashes
    | 0, 0, _ + 1 => .error .lockscriptContainsUnknownHashesOnly
    | 0, _ + 1, _ => .error .lockscriptKeyNotFound
    | _ + 1, _, _ => .ok ⟨st.2⟩

/-! ### Taproot composition (src/bp/dbc/taproot.rs) -/

/-- `TaprootContainer`: a script-tree root hash plus the intermediate
public key. -/
structure TaprootContainer (H256 Point : Type) where
  script_root : H256
  intermediate_key : Point
  deriving DecidableEq

/-- `TaprootCommitment`: the carried script root plus the embedded
key-tweak commitment. -/
structure TaprootCommitment (H256 Point : Type) where
  script_root : H256
  pubkey_commitment : PubkeyCommitment Point
  deriving DecidableEq

/-- `TaprootCommitment::commit_to`: delegate the intermediate key to
the LNPBP-1 key-tweak commitment and carry `script_root` unchanged. -/
def taproot_commit_to {H256 Point : Type}
    (tweak : Point → List Nat → Option Point)
    (container : TaprootContainer H256 Point) (msg : List Nat) :
    Except DbcError (TaprootCommitment H256 Point) :=
  match pubkey_commit_embed tweak container.intermediate_key msg with
  | .error e => .error e
  | .ok cmt => .ok ⟨container.script_root, cmt⟩

/-- `TaprootCommitment::get_original_container`: recover the container
from the stored script root and the original key of the embedded
commitment. -/
def taproot_get_original_container {H256 Point : Type}
    (c : TaprootCommitment H256 Point) : TaprootContainer H256 Point :=
  ⟨c.script_root, c.pubkey_commitment.original⟩

/-! ### Txout composition (src/bp/dbc/txout.rs)

The scriptPubkey dispatch (`scriptpubkey.rs`) is missing from the
excerpt; it enters at its interface boundary as the parameters
`spk_commit_embed` (its `commit_embed`) and `spk_container` (its
container recovery). -/

/-- `TxoutContainer`: an output value plus the scriptPubkey
container. -/
structure TxoutContainer (SPKCont : Type) where
  value : Nat
  script_container : SPKCont
  deriving DecidableEq

/-- `TxoutCommitment`: the carried value plus the embedded
scriptPubkey commitment. -/
structure TxoutCommitment (SPKC : Type) where
  value : Nat
  script_commitment : SPKC
  deriving DecidableEq

/-- `TxoutCommitment::commit_embed`: hold `value` unchanged and
delegate the script container to the scriptPubkey commitment. -/
def txout_commit_embed {SPKCont SPKC : Type}
    (spk_commit_embed : SPKCont → List Nat → Except DbcError SPKC)
    (container : TxoutContainer SPKCont) (msg : List Nat) :
    Except DbcError (TxoutCommitment SPKC) :=
  match spk_commit_embed container.script_container msg with
  | .error e => .error e
  | .ok sc => .ok ⟨container.value, sc⟩

/-- `TxoutCommitment::container`: recover the container from the
stored value and the script commitment's own container. -/
def txout_container {SPKCont SPKC : Type}
    (spk_container : SPKC → SPKCont) (c : TxoutCommitment SPKC) :
    TxoutContainer SPKCont :=
  ⟨c.value, spk_container c.script_commitment⟩

/-! ## Spec-level tree measures

These functions restate §4.3's description of the traversal — how many
key leaves, hash leaves and target matches a script tree contains, and
what the rewritten tree must look like — independently of the
implementation's threaded counters, so that the theorems relate the
two. -/

/-- Number of literal public-key leaves in a script tree. -/
def countKeys {Point PKHash : Type} : MSTree Point PKHash → Nat
  | .pk _ _ => 1
  | .pkh _ => 0
  | .opcode => 0
  | .node l r => countKeys l + countKeys r

/-- Number of literal public-key-hash leaves in a script tree. -/
def countHashes {Point PKHash : Type} : MSTree Point PKHash → Nat
  | .pk _ _ => 0
  | .pkh _ => 1
  | .opcode => 0
  | .node l r => countHashes l + countHashes r

/-- Number of leaves matching the target: key leaves whose curve point
equals the target key (whatever their encoding flag) plus hash leaves
equal to the target key's hash. -/
def countMatches {Point PKHash : Type} [DecidableEq Point]
    [DecidableEq PKHash] (target : Point) (original_hash : PKHash) :
    MSTree Point PKHash → Nat
  | .pk p _ => if p = target then 1 else 0
  | .pkh h => if h = original_hash then 1 else 0
  | .opcode => 0
  | .node l r => countMatches target original_hash l +
      countMatches target original_hash r

/-- The substitution described by §4.3: every key leaf whose point
equals the target becomes the tweaked key in compressed form, every
hash leaf equal to the target's hash becomes the tweaked key's hash,
and everything else — non-matching keys, non-matching hashes and
key-free nodes — is left unchanged. -/
def subst_script {Point PKHash : Type} [DecidableEq Point]
    [DecidableEq PKHash] (target tweaked : Point)
    (original_hash tweaked_hash : PKHash) :
    MSTree Point PKHash → MSTree Point PKHash
  | .pk p c => if p = target then .pk tweaked true else .pk p c
  | .pkh h => if h = original_hash then .pkh tweaked_hash else .pkh h
  | .opcode => .opcode
  | .node l r => .node (subst_script target tweaked original_hash tweaked_hash l)
      (subst_script target tweaked original_hash tweaked_hash r)

theorem replace_counts {Point PKHash : Type} [DecidableEq Point]
    [DecidableEq PKHash] (target tweaked : Point)
    (original_hash tweaked_hash : PKHash) :
    ∀ (t : MSTree Point PKHash) (s : Counters),
      (replace_pubkeys_and_hashes (lockscript_key_fn target tweaked)
        (lockscript_hash_fn original_hash tweaked_hash) s t).1 =
      ⟨s.keys_count + countKeys t, s.hashes_count + countHashes t,
        s.found + countMatches target original_hash t⟩ := by
  intro t
  induction t with
  | pk p c =>
    intro s
    by_cases hp : p = target
    · subst hp
      by_cases hq : tweaked = p <;>
        simp [replace_pubkeys_and_hashes, lockscript_key_fn, hq,
          countKeys, countHashes, countMatches]
    · simp [replace_pubkeys_and_hashes, lockscript_key_fn, hp,
        countKeys, countHashes, countMatches]
  | pkh h =>
    intro s
    by_cases hh : h = original_hash <;>
      simp [replace_pubkeys_and_hashes, lockscript_hash_fn, hh,
        countKeys, countHashes, countMatches]
  | opcode =>
    intro s
    simp [replace_pubkeys_and_hashes, countKeys, countHashes, countMatches]
  | node l r ihl ihr =>
    intro s
    simp only [replace_pubkeys_and_hashes, ihl, ihr, countKeys, countHashes,
      countMatches, Counters.mk.injEq]
    omega

theorem replace_tree {Point PKHash : Type} [DecidableEq Point]
    [DecidableEq PKHash] {target tweaked : Point}
    (original_hash tweaked_hash : PKHash) (hne : tweaked ≠ target) :
    ∀ (t : MSTree Point PKHash) (s : Counters),
      (replace_pubkeys_and_hashes (lockscript_key_fn target tweaked)
        (lockscript_hash_fn original_hash tweaked_hash) s t).2 =
      subst_script target tweaked original_hash tweaked_hash t := by
  intro t
  induction t with
  | pk p c =>
    intro s
    by_cases hp : p = target
    · subst hp
      have hq : ¬ tweaked = p := hne
      simp [replace_pubkeys_and_hashes, lockscript_key_fn, hq, subst_script]
    · simp [replace_pubkeys_and_hashes, lockscript_key_fn, hp, subst_script]
  | pkh h =>
    intro s
    by_cases hh : h = original_hash <;>
      simp [replace_pubkeys_and_hashes, lockscript_hash_fn, hh, subst_script]
  | opcode =>
    intro s
    simp [replace_pubkeys_and_hashes, subst_script]
  | node l r ihl ihr =>
    intro s
    simp only [replace_pubkeys_and_hashes, ihl, ihr, subst_script]

theorem reveal_verify_error {C Cont E : Type} [DecidableEq C]
    {get_original_container : C → Cont}
    {commit_to : Cont → List Nat → Except E C} {c : C} {msg : List Nat}
    {e : E} (h : commit_to (get_original_container c) msg = .error e) :
    reveal_verify get_original_container commit_to c msg = false := by
  rw [reveal_verify, h]

/-- C1: for every embedded commitment scheme — and for the taproot,
txout and lockscript schemes in particular, the latter two for any
container-recovery function — the default `reveal_verify(c, msg)`
returns `true` iff `commit_embed(c.get_original_container(), msg)`
succeeds and returns exactly `c`; any internal error during
recomputation yields `false` instead of propagating. -/
theorem reveal_verify_spec :
    (∀ (C Cont E : Type) (instC : DecidableEq C)
      (get_original_container : C → Cont)
      (commit_to : Cont → List Nat → Except E C) (c : C) (msg : List Nat),
      (reveal_verify get_original_container commit_to c msg = true ↔
        commit_to (get_original_container c) msg = .ok c) ∧
      (∀ e, commit_to (get_original_container c) msg = .error e →
        reveal_verify get_original_container commit_to c msg = false)) ∧
    (∀ (H256 Point : Type) (iH : DecidableEq H256) (iP : DecidableEq Point)
      (tweak : Point → List Nat → Option Point)
      (c : TaprootCommitment H256 Point) (msg : List Nat),
      reveal_verify taproot_get_original_container (taproot_commit_to tweak)
          c msg = true ↔
        taproot_commit_to tweak (taproot_get_original_container c) msg =
          .ok c) ∧
    (∀ (SPKCont SPKC : Type) (i1 : DecidableEq SPKCont)
      (i2 : DecidableEq SPKC)
      (spk_commit_embed : SPKCont → List Nat → Except DbcError SPKC)
      (spk_container : SPKC → SPKCont) (c : TxoutCommitment SPKC)
      (msg : List Nat),
      reveal_verify (txout_container spk_container)
          (txout_commit_embed spk_commit_embed) c msg = true ↔
        txout_commit_embed spk_commit_embed
          (txout_container spk_container c) msg = .ok c) ∧
    (∀ (Point PKHash : Type) (iP : DecidableEq Point)
      (iH : DecidableEq PKHash) (tweak : Point → List Nat → Option Point)
      (ser : Bool → Point → List Nat) (hash160 : List Nat → PKHash)
      (lockscript_get_original_container :
        LockscriptCommitment Point PKHash → LockscriptContainer Point PKHash)
      (c : LockscriptCommitment Point PKHash) (msg : List Nat),
      reveal_verify lockscript_get_original_container
          (lockscript_commit_embed tweak ser hash160) c msg = true ↔
        lockscript_commit_embed tweak ser hash160
          (lockscript_get_original_container c) msg = .ok c) := by
  refine ⟨?_, ?_, ?_, ?_⟩
  · intro C Cont E instC get_original_container commit_to c msg
    exact ⟨reveal_verify_eq_true_iff get_original_container commit_to c msg,
      fun e he => reveal_verify_error he⟩
  · intro H256 Point iH iP tweak c msg
    exact reveal_verify_eq_true_iff _ _ c msg
  · intro SPKCont SPKC i1 i2 spk_commit_embed spk_container c msg
    exact reveal_verify_eq_true_iff _ _ c msg
  · intro Point PKHash iP iH tweak ser hash160 lockscript_goc c msg
    exact reveal_verify_eq_true_iff _ _ c msg

/-- C1 witness: a toy embedded scheme over `Nat` whose recomputation
succeeds only at 3 — verification succeeds at 3 and the internal error
at 5 is mapped to `false`. -/
theorem reveal_verify_spec_witness :
    reveal_verify (fun n : Nat => n)
      (fun n _ => if n = 3 then Except.ok 3 else Except.error (0 : Nat))
      3 [] = true ∧
    reveal_verify (fun n : Nat => n)
      (fun n _ => if n = 3 then Except.ok 3 else Except.error (0 : Nat))
      5 [] = false :=
  ⟨(reveal_verify_spec.1 Nat Nat Nat inferInstance (fun n => n)
      (fun n _ => if n = 3 then Except.ok 3 else Except.error 0) 3 []).1.mpr
      (by decide),
    (reveal_verify_spec.1 Nat Nat Nat inferInstance (fun n => n)
      (fun n _ => if n = 3 then Except.ok 3 else Except.error 0) 5 []).2 0
      (by decide)⟩

/-- C2: when the key tweak succeeds, `lockscript_commit_embed`
classifies its outcome exactly by the triple (matches, keys seen,
hashes seen) counted over the whole script tree: (0,0,0) fails with
`LockscriptContainsNoKeysOrHashes`, (0,0,>0) with
`LockscriptContainsUnknownHashesOnly`, (0,>0,*) with
`LockscriptKeyNotFound`, and any triple with at least one match
succeeds. -/
theorem lockscript_commit_embed_classification :
    ∀ (Point PKHash : Type) (iP : DecidableEq Point)
      (iH : DecidableEq PKHash) (tweak : Point → List Nat → Option Point)
      (ser : Bool → Point → List Nat) (hash160 : List Nat → PKHash)
      (container : LockscriptContainer Point PKHash) (msg : List Nat)
      (pc : PubkeyCommitment Point),
      pubkey_commit_embed tweak container.pubkey msg = .ok pc →
      ((countMatches container.pubkey
          (pubkey_hash ser hash160 true container.pubkey) container.script = 0 →
        countKeys container.script = 0 → countHashes container.script = 0 →
        lockscript_commit_embed tweak ser hash160 container msg =
          .error .lockscriptContainsNoKeysOrHashes) ∧
      (countMatches container.pubkey
          (pubkey_hash ser hash160 true container.pubkey) container.script = 0 →
        countKeys container.script = 0 → 0 < countHashes container.script →
        lockscript_commit_embed tweak ser hash160 container msg =
          .error .lockscriptContainsUnknownHashesOnly) ∧
      (countMatches container.pubkey
          (pubkey_hash ser hash160 true container.pubkey) container.script = 0 →
        0 < countKeys container.script →
        lockscript_commit_embed tweak ser hash160 container msg =
          .error .lockscriptKeyNotFound) ∧
      (0 < countMatches container.pubkey
          (pubkey_hash ser hash160 true container.pubkey) container.script →
        ∃ cm, lockscript_commit_embed tweak ser hash160 container msg =
          .ok cm)) := by
  intro Point PKHash iP iH tweak ser hash160 container msg pc h
  have hc := replace_counts container.pubkey pc.tweaked
    (pubkey_hash ser hash160 true container.pubkey)
    (pubkey_hash ser hash160 true pc.tweaked) container.script ⟨0, 0, 0⟩
  refine ⟨?_, ?_, ?_, ?_⟩
  · intro hm hk hh
    simp only [lockscript_commit_embed, h, hc, hm, hk, hh]
  · intro hm hk hh
    obtain ⟨n, hn⟩ : ∃ n, countHashes container.script = n + 1 :=
      ⟨countHashes container.script - 1, by omega⟩
    simp only [lockscript_commit_embed, h, hc, hm, hk, hn]
  · intro hm hk
    obtain ⟨n, hn⟩ : ∃ n, countKeys container.script = n + 1 :=
      ⟨countKeys container.script - 1, by omega⟩
    simp only [lockscript_commit_embed, h, hc, hm, hn]
  · intro hm
    obtain ⟨n, hn⟩ : ∃ n, countMatches container.pubkey
        (pubkey_hash ser hash160 true container.pubkey) container.script =
        n + 1 :=
      ⟨countMatches container.pubkey
        (pubkey_hash ser hash160 true container.pubkey)
        container.script - 1, by omega⟩
    refine ⟨⟨(replace_pubkeys_and_hashes
      (lockscript_key_fn container.pubkey pc.tweaked)
      (lockscript_hash_fn (pubkey_hash ser hash160 true container.pubkey)
        (pubkey_hash ser hash160 true pc.tweaked))
      ⟨0, 0, 0⟩ container.script).2⟩, ?_⟩
    simp only [lockscript_commit_embed, h, hc, hn]

/-- C2 witness: with the toy tweak `p ↦ p + 1` over `Nat` keys and a
sum hash, the four classification cases at concrete one-leaf scripts:
a pure-opcode script, an unrelated hash, an unrelated key, and the
target key itself. -/
theorem lockscript_commit_embed_classification_witness :
    lockscript_commit_embed (fun p _ => some (p + 1))
      (fun c p => [p, cond c 1 0]) List.sum
      ⟨MSTree.opcode, 0⟩ [] = .error .lockscriptContainsNoKeysOrHashes ∧
    lockscript_commit_embed (fun p _ => some (p + 1))
      (fun c p => [p, cond c 1 0]) List.sum
      ⟨MSTree.pkh 99, 0⟩ [] = .error .lockscriptContainsUnknownHashesOnly ∧
    lockscript_commit_embed (fun p _ => some (p + 1))
      (fun c p => [p, cond c 1 0]) List.sum
      ⟨MSTree.pk 5 true, 0⟩ [] = .error .lockscriptKeyNotFound ∧
    ∃ cm, lockscript_commit_embed (fun p _ => some (p + 1))
      (fun c p => [p, cond c 1 0]) List.sum
      ⟨MSTree.pk 0 true, 0⟩ [] = .ok cm := by
  refine ⟨?_, ?_, ?_, ?_⟩
  · exact (lockscript_commit_embed_classification Nat Nat inferInstance
      inferInstance (fun p _ => some (p + 1)) (fun c p => [p, cond c 1 0])
      List.sum ⟨MSTree.opcode, 0⟩ [] ⟨0, 1⟩ rfl).1
      (by decide) (by decide) (by decide)
  · exact (lockscript_commit_embed_classification Nat Nat inferInstance
      inferInstance (fun p _ => some (p + 1)) (fun c p => [p, cond c 1 0])
      List.sum ⟨MSTree.pkh 99, 0⟩ [] ⟨0, 1⟩ rfl).2.1
      (by decide) (by decide) (by decide)
  · exact (lockscript_commit_embed_classification Nat Nat inferInstance
      inferInstance (fun p _ => some (p + 1)) (fun c p => [p, cond c 1 0])
      List.sum ⟨MSTree.pk 5 true, 0⟩ [] ⟨0, 1⟩ rfl).2.2.1
      (by decide) (by decide)
  · exact (lockscript_commit_embed_classification Nat Nat inferInstance
      inferInstance (fun p _ => some (p + 1)) (fun c p => [p, cond c 1 0])
      List.sum ⟨MSTree.pk 0 true, 0⟩ [] ⟨0, 1⟩ rfl).2.2.2
      (by decide)

/-- C3: when the key tweak succeeds and actually changes the key, a
successful `lockscript_commit_embed` returns exactly the script with
every target-key leaf replaced by the tweaked key, every target-hash
leaf replaced by the tweaked key's hash, and everything else
unchanged; and whenever the target occurs at least once — multiple
occurrences included — the embedding succeeds with that substituted
script. -/
theorem lockscript_commit_embed_substitution :
    ∀ (Point PKHash : Type) (iP : DecidableEq Point)
      (iH : DecidableEq PKHash) (tweak : Point → List Nat → Option Point)
      (ser : Bool → Point → List Nat) (hash160 : List Nat → PKHash)
      (container : LockscriptContainer Point PKHash) (msg : List Nat)
      (pc : PubkeyCommitment Point),
      pubkey_commit_embed tweak container.pubkey msg = .ok pc →
      pc.tweaked ≠ container.pubkey →
      ((∀ cm, lockscript_commit_embed tweak ser hash160 container msg =
          .ok cm →
        cm.script = subst_script container.pubkey pc.tweaked
          (pubkey_hash ser hash160 true container.pubkey)
          (pubkey_hash ser hash160 true pc.tweaked) container.script) ∧
      (1 ≤ countMatches container.pubkey
          (pubkey_hash ser hash160 true container.pubkey) container.script →
        lockscript_commit_embed tweak ser hash160 container msg =
          .ok ⟨subst_script container.pubkey pc.tweaked
            (pubkey_hash ser hash160 true container.pubkey)
            (pubkey_hash ser hash160 true pc.tweaked) container.script⟩)) := by
  intro Point PKHash iP iH tweak ser hash160 container msg pc h hne
  have hc := replace_counts container.pubkey pc.tweaked
    (pubkey_hash ser hash160 true container.pubkey)
    (pubkey_hash ser hash160 true pc.tweaked) container.script ⟨0, 0, 0⟩
  have ht := replace_tree (pubkey_hash ser hash160 true container.pubkey)
    (pubkey_hash ser hash160 true pc.tweaked) hne container.script ⟨0, 0, 0⟩
  constructor
  · intro cm hcm
    cases hm : countMatches container.pubkey
        (pubkey_hash ser hash160 true container.pubkey) container.script with
    | zero =>
      exfalso
      cases hk : countKeys container.script with
      | zero =>
        cases hh : countHashes container.script with
        | zero =>
          simp only [lockscript_commit_embed, h, hc, hm, hk, hh] at hcm
          exact Except.noConfusion hcm
        | succ n =>
          simp only [lockscript_commit_embed, h, hc, hm, hk, hh] at hcm
          exact Except.noConfusion hcm
      | succ n =>
        simp only [lockscript_commit_embed, h, hc, hm, hk] at hcm
        exact Except.noConfusion hcm
    | succ n =>
      simp only [lockscript_commit_embed, h, hc, hm] at hcm
      cases hcm
      simpa using ht
  · intro hm
    obtain ⟨n, hn⟩ : ∃ n, countMatches container.pubkey
        (pubkey_hash ser hash160 true container.pubkey) container.script =
        n + 1 :=
      ⟨countMatches container.pubkey
        (pubkey_hash ser hash160 true container.pubkey)
        container.script - 1, by omega⟩
    simp only [lockscript_commit_embed, h, hc, hn, ht]

/-- C3 witness: the target key 0 appears twice (once compressed, once
uncompressed) in a two-branch script; the embedding succeeds and both
occurrences are rewritten to the tweaked key 1 in compressed form. -/
theorem lockscript_commit_embed_substitution_witness :
    lockscript_commit_embed (fun p _ => some (p + 1))
      (fun c p => [p, cond c 1 0]) List.sum
      ⟨MSTree.node (MSTree.pk 0 true) (MSTree.pk 0 false), 0⟩ [] =
      .ok ⟨MSTree.node (MSTree.pk 1 true) (MSTree.pk 1 true)⟩ := by
  have h := (lockscript_commit_embed_substitution Nat Nat inferInstance
    inferInstance (fun p _ => some (p + 1)) (fun c p => [p, cond c 1 0])
    List.sum ⟨MSTree.node (MSTree.pk 0 true) (MSTree.pk 0 false), 0⟩ []
    ⟨0, 1⟩ rfl (by decide)).2 (by decide)
  rw [h]
  rfl

/-- C4: `OutpointReveal::outpoint_hash` is the double SHA-256 of
exactly the concatenation of the 4 big-endian bytes of the `u32`
blinding factor, the raw txid bytes, and the 2 big-endian bytes of the
`u16` vout — a pure deterministic function of those three fields. -/
theorem outpoint_hash_spec :
    (∀ (sha256 : List Nat → List Nat) (r : OutpointReveal),
      outpoint_hash sha256 r =
        sha256 (sha256 (beBytes 4 r.blinding ++ r.txid ++
          beBytes 2 r.vout))) ∧
    (∀ (sha256 : List Nat → List Nat) (r₁ r₂ : OutpointReveal),
      r₁.blinding = r₂.blinding → r₁.txid = r₂.txid → r₁.vout = r₂.vout →
      outpoint_hash sha256 r₁ = outpoint_hash sha256 r₂) := by
  constructor
  · intro sha256 r
    simp [outpoint_hash, sha256dFromEngine, engineInput]
  · intro sha256 r₁ r₂ h1 h2 h3
    rw [outpoint_hash, outpoint_hash, h1, h2, h3]

/-- C4 witness: the hash at the concrete reveal (blinding 1, txid
bytes [2, 3], vout 4) equals the double hash of the concatenated
preimage, and equal fields give equal hashes. -/
theorem outpoint_hash_spec_witness :
    outpoint_hash id ⟨1, [2, 3], 4⟩ =
      id (id (beBytes 4 1 ++ [2, 3] ++ beBytes 2 4)) ∧
    outpoint_hash id ⟨1, [2, 3], 4⟩ = outpoint_hash id ⟨1, [2, 3], 4⟩ :=
  ⟨outpoint_hash_spec.1 id ⟨1, [2, 3], 4⟩,
    outpoint_hash_spec.2 id ⟨1, [2, 3], 4⟩ ⟨1, [2, 3], 4⟩ rfl rfl rfl⟩

/-- C6: verifying a composite commitment is exactly verifying its
embedded sub-commitment — the taproot `reveal_verify` coincides with
the pubkey-commitment `reveal_verify` (the carried `script_root` being
recovered from the commitment itself and compared for exact equality),
and the txout `reveal_verify` coincides with the scriptPubkey
`reveal_verify` (likewise for `value`). -/
theorem composite_reveal_verify_equiv :
    (∀ (H256 Point : Type) (iH : DecidableEq H256) (iP : DecidableEq Point)
      (tweak : Point → List Nat → Option Point)
      (c : TaprootCommitment H256 Point) (msg : List Nat),
      reveal_verify taproot_get_original_container (taproot_commit_to tweak)
          c msg =
        reveal_verify pubkey_get_original_container
          (pubkey_commit_embed tweak) c.pubkey_commitment msg) ∧
    (∀ (SPKCont SPKC : Type) (i1 : DecidableEq SPKCont)
      (i2 : DecidableEq SPKC)
      (spk_commit_embed : SPKCont → List Nat → Except DbcError SPKC)
      (spk_container : SPKC → SPKCont) (c : TxoutCommitment SPKC)
      (msg : List Nat),
      reveal_verify (txout_container spk_container)
          (txout_commit_embed spk_commit_embed) c msg =
        reveal_verify spk_container spk_commit_embed
          c.script_commitment msg) := by
  constructor
  · intro H256 Point iH iP tweak c msg
    obtain ⟨root, o, tw⟩ := c
    simp only [reveal_verify, taproot_get_original_container,
      taproot_commit_to, pubkey_get_original_container, pubkey_commit_embed]
    cases ht : tweak o msg with
    | none => rfl
    | some t =>
      simp [TaprootCommitment.mk.injEq, PubkeyCommitment.mk.injEq]
  · intro SPKCont SPKC i1 i2 spk_commit_embed spk_container c msg
    obtain ⟨value, sc⟩ := c
    simp only [reveal_verify, txout_container, txout_commit_embed]
    cases hs : spk_commit_embed (spk_container sc) msg with
    | error e => rfl
    | ok s' =>
      simp [TxoutCommitment.mk.injEq]

/-- C7: a successful txout embedding preserves `value` unchanged and
its script commitment is exactly the delegated scriptPubkey
commitment; a successful taproot embedding preserves `script_root`
unchanged and its pubkey commitment is exactly the delegated key-tweak
commitment; a failure of the delegated sub-commitment aborts the whole
operation with that same error. -/
theorem composition_frame :
    (∀ (SPKCont SPKC : Type)
      (spk_commit_embed : SPKCont → List Nat → Except DbcError SPKC)
      (container : TxoutContainer SPKCont) (msg : List Nat)
      (r : TxoutCommitment SPKC),
      txout_commit_embed spk_commit_embed container msg = .ok r →
      r.value = container.value ∧
        spk_commit_embed container.script_container msg =
          .ok r.script_commitment) ∧
    (∀ (SPKCont SPKC : Type)
      (spk_commit_embed : SPKCont → List Nat → Except DbcError SPKC)
      (container : TxoutContainer SPKCont) (msg : List Nat) (e : DbcError),
      spk_commit_embed container.script_container msg = .error e →
      txout_commit_embed spk_commit_embed container msg =
        (.error e : Except DbcError (TxoutCommitment SPKC))) ∧
    (∀ (H256 Point : Type) (tweak : Point → List Nat → Option Point)
      (container : TaprootContainer H256 Point) (msg : List Nat)
      (r : TaprootCommitment H256 Point),
      taproot_commit_to tweak container msg = .ok r →
      r.script_root = container.script_root ∧
        pubkey_commit_embed tweak container.intermediate_key msg =
          .ok r.pubkey_commitment) ∧
    (∀ (H256 Point : Type) (tweak : Point → List Nat → Option Point)
      (container : TaprootContainer H256 Point) (msg : List Nat)
      (e : DbcError),
      pubkey_commit_embed tweak container.intermediate_key msg = .error e →
      taproot_commit_to tweak container msg =
        (.error e : Except DbcError (TaprootCommitment H256 Point))) := by
  refine ⟨?_, ?_, ?_, ?_⟩
  · intro SPKCont SPKC spk_commit_embed container msg r h
    rw [txout_commit_embed] at h
    cases hs : spk_commit_embed container.script_container msg with
    | error e => rw [hs] at h; cases h
    | ok sc =>
      rw [hs] at h
      cases h
      exact ⟨rfl, rfl⟩
  · intro SPKCont SPKC spk_commit_embed container msg e h
    rw [txout_commit_embed, h]
  · intro H256 Point tweak container msg r h
    rw [taproot_commit_to] at h
    cases hs : pubkey_commit_embed tweak container.intermediate_key msg with
    | error e => rw [hs] at h; cases h
    | ok cmt =>
      rw [hs] at h
      cases h
      exact ⟨rfl, rfl⟩
  · intro H256 Point tweak container msg e h
    rw [taproot_commit_to, h]

/-- C7 witness: both frame conditions and both error propagations at
concrete toy containers. -/
theorem composition_frame_witness :
    ((5 : Nat) = 5 ∧
      (Except.ok 8 : Except DbcError Nat) = .ok 8) ∧
    txout_commit_embed (fun _ _ => .error .invalidTweak)
      (⟨5, 7⟩ : TxoutContainer Nat) [] =
      (.error .invalidTweak : Except DbcError (TxoutCommitment Nat)) ∧
    ((9 : Nat) = 9 ∧
      pubkey_commit_embed (fun p _ => some (p + 1)) (7 : Nat) [] =
        .ok ⟨7, 8⟩) ∧
    taproot_commit_to (fun _ _ => none) (⟨9, 7⟩ : TaprootContainer Nat Nat)
      [] = .error .invalidTweak := by
  refine ⟨?_, ?_, ?_, ?_⟩
  · exact composition_frame.1 Nat Nat (fun n _ => .ok (n + 1)) ⟨5, 7⟩ []
      ⟨5, 8⟩ rfl
  · exact composition_frame.2.1 Nat Nat (fun _ _ => .error .invalidTweak)
      ⟨5, 7⟩ [] .invalidTweak rfl
  · exact composition_frame.2.2.1 Nat Nat (fun p _ => some (p + 1)) ⟨9, 7⟩
      [] ⟨9, ⟨7, 8⟩⟩ rfl
  · exact composition_frame.2.2.2 Nat Nat (fun _ _ => none) ⟨9, 7⟩ []
      .invalidTweak rfl

/-- C8: the lockscript matching step sees only the curve point of a
key leaf, never its encoding flag — the counters are identical for
compressed and uncompressed encodings of the same point, a key leaf
matches iff its point equals the target, a matched leaf is stored as
the tweaked key in compressed form, and the hash comparison matches
exactly the hash of the target's compressed serialization, storing the
hash of the tweaked key's compressed serialization. -/
theorem lockscript_key_normalization :
    (∀ (Point PKHash : Type) (iP : DecidableEq Point)
      (iH : DecidableEq PKHash) (target tweaked : Point)
      (oh th : PKHash) (s : Counters) (p : Point) (c₁ c₂ : Bool),
      (replace_pubkeys_and_hashes (lockscript_key_fn target tweaked)
        (lockscript_hash_fn oh th) s (.pk p c₁)).1 =
      (replace_pubkeys_and_hashes (lockscript_key_fn target tweaked)
        (lockscript_hash_fn oh th) s (.pk p c₂)).1) ∧
    (∀ (Point PKHash : Type) (iP : DecidableEq Point)
      (iH : DecidableEq PKHash) (target tweaked : Point)
      (oh th : PKHash) (s : Counters) (p : Point) (c : Bool),
      (replace_pubkeys_and_hashes (lockscript_key_fn target tweaked)
        (lockscript_hash_fn oh th) s (.pk p c)).1.found =
      s.found + (if p = target then 1 else 0)) ∧
    (∀ (Point PKHash : Type) (iP : DecidableEq Point)
      (iH : DecidableEq PKHash) (target tweaked : Point)
      (oh th : PKHash) (s : Counters) (p : Point) (c : Bool),
      p = target → tweaked ≠ target →
      (replace_pubkeys_and_hashes (lockscript_key_fn target tweaked)
        (lockscript_hash_fn oh th) s
        (.pk p c)).2 = (.pk tweaked true : MSTree Point PKHash)) ∧
    (∀ (Point PKHash : Type) (iP : DecidableEq Point)
      (iH : DecidableEq PKHash) (target tweaked : Point)
      (ser : Bool → Point → List Nat) (hash160 : List Nat → PKHash)
      (s : Counters) (h : PKHash),
      (replace_pubkeys_and_hashes (lockscript_key_fn target tweaked)
        (lockscript_hash_fn (pubkey_hash ser hash160 true target)
          (pubkey_hash ser hash160 true tweaked)) s (.pkh h)).1.found =
      s.found + (if h = hash160 (ser true target) then 1 else 0)) ∧
    (∀ (Point PKHash : Type) (iP : DecidableEq Point)
      (iH : DecidableEq PKHash) (target tweaked : Point)
      (ser : Bool → Point → List Nat) (hash160 : List Nat → PKHash)
      (s : Counters) (h : PKHash),
      h = hash160 (ser true target) →
      (replace_pubkeys_and_hashes (lockscript_key_fn target tweaked)
        (lockscript_hash_fn (pubkey_hash ser hash160 true target)
          (pubkey_hash ser hash160 true tweaked)) s
        (.pkh h)).2 =
        (.pkh (hash160 (ser true tweaked)) : MSTree Point PKHash)) := by
  refine ⟨?_, ?_, ?_, ?_, ?_⟩
  · intro Point PKHash iP iH target tweaked oh th s p c₁ c₂
    rw [replace_counts, replace_counts]
    simp [countKeys, countHashes, countMatches]
  · intro Point PKHash iP iH target tweaked oh th s p c
    rw [replace_counts]
    simp [countKeys, countHashes, countMatches]
  · intro Point PKHash iP iH target tweaked oh th s p c hp hne
    subst hp
    have hq : ¬ tweaked = p := hne
    simp [replace_pubkeys_and_hashes, lockscript_key_fn, hq]
  · intro Point PKHash iP iH target tweaked ser hash160 s h
    rw [replace_counts]
    simp [countKeys, countHashes, countMatches, pubkey_hash]
  · intro Point PKHash iP iH target tweaked ser hash160 s h hh
    simp [replace_pubkeys_and_hashes, lockscript_hash_fn, hh, pubkey_hash]

/-- C8 witness: at the target point 0, the compressed and uncompressed
leaves yield the same counters; the match test, substitution,
compressed-hash comparison and stored tweaked hash evaluated at
concrete toy serializations. -/
theorem lockscript_key_normalization_witness :
    (replace_pubkeys_and_hashes (lockscript_key_fn 0 1)
      (lockscript_hash_fn 7 8) ⟨0, 0, 0⟩
      (.pk 0 true : MSTree Nat Nat)).1 =
    (replace_pubkeys_and_hashes (lockscript_key_fn 0 1)
      (lockscript_hash_fn 7 8) ⟨0, 0, 0⟩ (.pk 0 false)).1 ∧
    (replace_pubkeys_and_hashes (lockscript_key_fn 0 1)
      (lockscript_hash_fn 7 8) ⟨0, 0, 0⟩
      (.pk 0 false : MSTree Nat Nat)).1.found =
      0 + (if (0 : Nat) = 0 then 1 else 0) ∧
    (replace_pubkeys_and_hashes (lockscript_key_fn 0 1)
      (lockscript_hash_fn 7 8) ⟨0, 0, 0⟩
      (.pk 0 false : MSTree Nat Nat)).2 = .pk 1 true ∧
    (replace_pubkeys_and_hashes (lockscript_key_fn 0 1)
      (lockscript_hash_fn
        (pubkey_hash (fun c p => [p, cond c 1 0]) List.sum true 0)
        (pubkey_hash (fun c p => [p, cond c 1 0]) List.sum true 1))
      ⟨0, 0, 0⟩ (.pkh 1 : MSTree Nat Nat)).1.found =
      0 + (if (1 : Nat) = List.sum [(0 : Nat), 1] then 1 else 0) ∧
    (replace_pubkeys_and_hashes (lockscript_key_fn 0 1)
      (lockscript_hash_fn
        (pubkey_hash (fun c p => [p, cond c 1 0]) List.sum true 0)
        (pubkey_hash (fun c p => [p, cond c 1 0]) List.sum true 1))
      ⟨0, 0, 0⟩ (.pkh 1 : MSTree Nat Nat)).2 =
      .pkh (List.sum [(1 : Nat), 1]) :=
  ⟨lockscript_key_normalization.1 Nat Nat inferInstance inferInstance
      0 1 7 8 ⟨0, 0, 0⟩ 0 true false,
    lockscript_key_normalization.2.1 Nat Nat inferInstance inferInstance
      0 1 7 8 ⟨0, 0, 0⟩ 0 false,
    lockscript_key_normalization.2.2.1 Nat Nat inferInstance inferInstance
      0 1 7 8 ⟨0, 0, 0⟩ 0 false rfl (by decide),
    lockscript_key_normalization.2.2.2.1 Nat Nat inferInstance inferInstance
      0 1 (fun c p => [p, cond c 1 0]) List.sum ⟨0, 0, 0⟩ 1,
    lockscript_key_normalization.2.2.2.2 Nat Nat inferInstance inferInstance
      0 1 (fun c p => [p, cond c 1 0]) List.sum ⟨0, 0, 0⟩ 1 (by decide)⟩

end Lnpbp
